import Mathlib

/-!
Verification of the FreeCAD FEM attribute-schema and migration code:
`src/Mod/Fem/femobjects/result_mechanical.py` and
`src/Mod/Fem/femsolver/elmer/equations/magnetodynamic.py`.

The attribute store of a document object is embedded as an association
list of named, typed, grouped attributes.  The host-side store semantics
(property declaration, typed get/set, read-only enforcement, removal)
live in the FreeCAD core, outside the sampled sources; they are modelled
from the specification.  The migration pass `onDocumentRestored` and the
constructors are translated from the Python sources.
-/

set_option autoImplicit false

/-- Semantic type of an attribute, mirroring the `App::Property*` types
used by the sampled sources. -/
inductive PropType where
  | pBool
  | pInt
  | pFloat
  | pString
  | pFloatList
  | pVectorList
  | pFrequency
  deriving DecidableEq, Repr

/-- A typed attribute value.  Scalars that are floating point in the host
are represented by rationals: the sampled code never computes with them,
it only stores, copies and deletes them. -/
inductive Value where
  | bool (b : Bool)
  | int (n : Int)
  | float (x : Rat)
  | string (s : String)
  | floatList (l : List Rat)
  | vectorList (l : List (Rat × Rat × Rat))
  | frequency (x : Rat)
  deriving DecidableEq, Repr

/-- The semantic type of a value. -/
def Value.ptype : Value → PropType
  | .bool _ => .pBool
  | .int _ => .pInt
  | .float _ => .pFloat
  | .string _ => .pString
  | .floatList _ => .pFloatList
  | .vectorList _ => .pVectorList
  | .frequency _ => .pFrequency

/-- `len(value)`: defined for the list-typed values only. -/
def Value.listLen : Value → Option Nat
  | .floatList l => some l.length
  | .vectorList l => some l.length
  | _ => none

/-- Default value populated when a property of the given type is declared. -/
def PropType.defaultValue : PropType → Value
  | .pBool => .bool false
  | .pInt => .int 0
  | .pFloat => .float 0
  | .pString => .string ""
  | .pFloatList => .floatList []
  | .pVectorList => .vectorList []
  | .pFrequency => .frequency 0

/-- Descriptor of one declared attribute: name, semantic type, group,
documentation, read-only flag and the dynamic-lock status flag set by
`addLockedProperty`. -/
structure PropDescr where
  name : String
  ptype : PropType
  group : String
  doc : String
  readOnly : Bool
  locked : Bool
  deriving DecidableEq, Repr

/-- One attribute of a store: its descriptor together with its value. -/
structure Attribute where
  descr : PropDescr
  value : Value
  deriving DecidableEq, Repr

/-- The attribute store of one object instance, in declaration order. -/
abbrev Store := List Attribute

/-- Errors of the store operations, following the specification's error
taxonomy, plus the host's refusal to remove a lock-protected property. -/
inductive SchemaError where
  | duplicateAttribute
  | unknownAttribute
  | typeMismatch
  | readOnlyViolation
  | lockViolation
  | corruptMigrationState
  deriving DecidableEq, Repr

/-- First attribute of the store with the given name, if any. -/
def findEntry : Store → String → Option Attribute
  | [], _ => none
  | a :: s, n => if a.descr.name = n then some a else findEntry s n

/-- `hasattr(obj, n)`: whether the store declares an attribute `n`. -/
def hasProp (s : Store) (n : String) : Bool :=
  (findEntry s n).isSome

/-- Value of attribute `n`, if declared. -/
def getValue (s : Store) (n : String) : Option Value :=
  (findEntry s n).map Attribute.value

/-- An attribute read (`obj.n`) as performed by the migration code: it
raises on an undeclared name. -/
def readValue (s : Store) (n : String) : Except SchemaError Value :=
  match findEntry s n with
  | none => .error .unknownAttribute
  | some a => .ok a.value

/-- Overwrite the value of the first attribute named `n`; identity when
`n` is not declared. -/
def writeValue : Store → String → Value → Store
  | [], _, _ => []
  | a :: s, n, v =>
    if a.descr.name = n then { a with value := v } :: s
    else a :: writeValue s n v

/-- Clear the dynamic-lock status of the first attribute named `n`. -/
def clearLock : Store → String → Store
  | [], _ => []
  | a :: s, n =>
    if a.descr.name = n then { a with descr := { a.descr with locked := false } } :: s
    else a :: clearLock s n

/-- Delete every attribute named `n` from the store. -/
def removeAll : Store → String → Store
  | [], _ => []
  | a :: s, n =>
    if a.descr.name = n then removeAll s n
    else a :: removeAll s n

/-- Modelled from the spec: the internal privileged write path used during
construction and migration.  It bypasses the read-only check but still
fails on an unknown attribute and on a semantic-type mismatch.  The
implementation lives in the FreeCAD property core, outside `src/`. -/
def privilegedSet (s : Store) (n : String) (v : Value) : Except SchemaError Store :=
  match findEntry s n with
  | none => .error .unknownAttribute
  | some a =>
    if a.descr.ptype = v.ptype then .ok (writeValue s n v)
    else .error .typeMismatch

/-- Modelled from the spec: the ordinary external set operation.  It fails
with `ReadOnlyViolationError` on a read-only attribute regardless of the
value, with `UnknownAttributeError` on an undeclared name, and with
`TypeMismatchError` on a semantic-type mismatch.  The implementation
lives in the FreeCAD property core, outside `src/`. -/
def externalSet (s : Store) (n : String) (v : Value) : Except SchemaError Store :=
  match findEntry s n with
  | none => .error .unknownAttribute
  | some a =>
    if a.descr.readOnly then .error .readOnlyViolation
    else if a.descr.ptype = v.ptype then .ok (writeValue s n v)
    else .error .typeMismatch

/-- Modelled from the spec: `obj.addLockedProperty(ptype, name, group,
doc, readOnly)` declares a dynamic property with the lock status set and
the default value of its type; declaring an already-present name is a
no-op.  The implementation lives in the FreeCAD property core, outside
`src/`. -/
def addLockedProperty (s : Store) (t : PropType) (n g d : String) (ro : Bool) : Store :=
  if hasProp s n then s
  else s ++ [⟨⟨n, t, g, d, ro, true⟩, t.defaultValue⟩]

/-- Modelled from the spec: `obj.setPropertyStatus(n, "-LockDynamic")`
clears the dynamic-lock status of property `n`; it fails on an unknown
name.  The implementation lives in the FreeCAD property core, outside
`src/`. -/
def setPropertyStatus (s : Store) (n st : String) : Except SchemaError Store :=
  match findEntry s n with
  | none => .error .unknownAttribute
  | some _ => .ok (if st = "-LockDynamic" then clearLock s n else s)

/-- Modelled from the spec: `obj.removeProperty(n)` deletes property `n`;
it fails on an unknown name and on a property whose dynamic-lock status
is still set.  The implementation lives in the FreeCAD property core,
outside `src/`. -/
def removeProperty (s : Store) (n : String) : Except SchemaError Store :=
  match findEntry s n with
  | none => .error .unknownAttribute
  | some a =>
    if a.descr.locked then .error .lockViolation
    else .ok (removeAll s n)

/-- The loop `for i in range(12, -1, -1): del temp[3*i + 1]` of
`ResultMechanical.onDocumentRestored`, generalised over the start index:
`delMids i t` deletes the element at offset `3*i + 1` and recurses with
`i - 1`, so deletions proceed from the last triple toward the first. -/
def delMids {α : Type} : Nat → List α → List α
  | 0, t => t.eraseIdx 1
  | n + 1, t => delMids n (t.eraseIdx (3 * (n + 1) + 1))

/-- `del temp[3*i+1]` for `i = 12 .. 0` applied to a list-typed value;
identity on scalar values. -/
def Value.eraseMids : Value → Value
  | .floatList l => .floatList (delMids 12 l)
  | .vectorList l => .vectorList (delMids 12 l)
  | v => v

/-- The `obj.addLockedProperty("App::PropertyFloatList", "vonMises", ...)`
call of `ResultMechanical.onDocumentRestored` (result_mechanical.py
lines 234-240). -/
def declareVonMises (s : Store) : Store :=
  addLockedProperty s .pFloatList "vonMises" "NodeData"
    "List of von Mises equivalent stresses" true

/-- First migration rule of `ResultMechanical.onDocumentRestored`
(result_mechanical.py lines 230-244): if the legacy attribute
`StressValues` is present, redeclare `vonMises`, copy the value of
`StressValues` into `vonMises`, unlock `StressValues` and remove it. -/
def migrateStressValues (s : Store) : Except SchemaError Store :=
  if hasProp s "StressValues" then
    (readValue (declareVonMises s) "StressValues").bind fun v =>
      (privilegedSet (declareVonMises s) "vonMises" v).bind fun s2 =>
        (setPropertyStatus s2 "StressValues" "-LockDynamic").bind fun s3 =>
          removeProperty s3 "StressValues"
  else .ok s

/-- Second migration rule of `ResultMechanical.onDocumentRestored`
(result_mechanical.py lines 246-252): `obj.Stats` is read
unconditionally; when `len(obj.Stats) == 39` the avg slots are deleted
from the last triple toward the first and the result is written back. -/
def migrateStats (s : Store) : Except SchemaError Store :=
  match findEntry s "Stats" with
  | none => .error .unknownAttribute
  | some a =>
    match a.value.listLen with
    | none => .error .typeMismatch
    | some n =>
      if n = 39 then privilegedSet s "Stats" a.value.eraseMids
      else .ok s

/-- `ResultMechanical.onDocumentRestored`: the `StressValues` rename rule
followed by the `Stats` shape-reduction rule. -/
def onDocumentRestored (s : Store) : Except SchemaError Store :=
  (migrateStressValues s).bind migrateStats

/-- The two migration rules applied in the opposite order, used to state
rule-order independence. -/
def onDocumentRestoredSwapped (s : Store) : Except SchemaError Store :=
  (migrateStats s).bind migrateStressValues

/-- Modelled from the spec: the store a fresh `Fem::ResultMechanical`
host object hands to the proxy constructor.  The C++ result-object base
class is outside `src/`; per the spec it contributes the aggregate
statistics attribute `Stats` (a ScalarList). -/
def resultBaseStore : Store :=
  [⟨⟨"Stats", .pFloatList, "Fem", "Statistics of the results", false, false⟩,
    .floatList []⟩]

/-- `ResultMechanical.__init__` (result_mechanical.py lines 43-228):
declares the result-specific properties in source order, writes
`ResultType` through the privileged path right after declaring it
read-only, and finally initializes `Stats` with 26 zeros. -/
def resultMechanicalInit (obj : Store) : Except SchemaError Store := do
  let obj := addLockedProperty obj .pString "ResultType" "Base" "Type of the result" true
  let obj ← privilegedSet obj "ResultType" (.string "Fem::ResultMechanical")
  let obj := addLockedProperty obj .pInt "Eigenmode" "Data" "" true
  let obj := addLockedProperty obj .pFloat "EigenmodeFrequency" "Data" "User Defined Results" true
  let obj := addLockedProperty obj .pVectorList "DisplacementVectors" "NodeData"
    "List of displacement vectors" true
  let obj := addLockedProperty obj .pFloatList "Peeq" "NodeData"
    "List of equivalent plastic strain values" true
  let obj := addLockedProperty obj .pFloatList "MohrCoulomb" "NodeData"
    "List of Mohr Coulomb stress values" true
  let obj := addLockedProperty obj .pFloatList "ReinforcementRatio_x" "NodeData"
    "Reinforcement ratio x-direction" true
  let obj := addLockedProperty obj .pFloatList "ReinforcementRatio_y" "NodeData"
    "Reinforcement ratio y-direction" true
  let obj := addLockedProperty obj .pFloatList "ReinforcementRatio_z" "NodeData"
    "Reinforcement ratio z-direction" true
  let obj := addLockedProperty obj .pVectorList "PS1Vector" "NodeData"
    "List of 1st Principal Stress Vectors" true
  let obj := addLockedProperty obj .pVectorList "PS2Vector" "NodeData"
    "List of 2nd Principal Stress Vectors" true
  let obj := addLockedProperty obj .pVectorList "PS3Vector" "NodeData"
    "List of 3rd Principal Stress Vectors" true
  let obj := addLockedProperty obj .pFloatList "DisplacementLengths" "NodeData"
    "List of displacement lengths" true
  let obj := addLockedProperty obj .pFloatList "vonMises" "NodeData"
    "List of von Mises equivalent stresses" true
  let obj := addLockedProperty obj .pFloatList "PrincipalMax" "NodeData" "" true
  let obj := addLockedProperty obj .pFloatList "PrincipalMed" "NodeData" "" true
  let obj := addLockedProperty obj .pFloatList "PrincipalMin" "NodeData" "" true
  let obj := addLockedProperty obj .pFloatList "MaxShear" "NodeData"
    "List of Maximum Shear stress values" true
  let obj := addLockedProperty obj .pFloatList "MassFlowRate" "NodeData"
    "List of mass flow rate values" true
  let obj := addLockedProperty obj .pFloatList "NetworkPressure" "NodeData"
    "List of network pressure values" true
  let obj := addLockedProperty obj .pFloatList "UserDefined" "NodeData" "User Defined Results" true
  let obj := addLockedProperty obj .pFloatList "Temperature" "NodeData" "Temperature field" true
  let obj := addLockedProperty obj .pVectorList "HeatFlux" "NodeData"
    "List of heat flux vectors" true
  let obj := addLockedProperty obj .pFloatList "NodeStressXX" "NodeData" "" true
  let obj := addLockedProperty obj .pFloatList "NodeStressYY" "NodeData" "" true
  let obj := addLockedProperty obj .pFloatList "NodeStressZZ" "NodeData" "" true
  let obj := addLockedProperty obj .pFloatList "NodeStressXY" "NodeData" "" true
  let obj := addLockedProperty obj .pFloatList "NodeStressXZ" "NodeData" "" true
  let obj := addLockedProperty obj .pFloatList "NodeStressYZ" "NodeData" "" true
  let obj := addLockedProperty obj .pFloatList "NodeStrainXX" "NodeData" "" true
  let obj := addLockedProperty obj .pFloatList "NodeStrainYY" "NodeData" "" true
  let obj := addLockedProperty obj .pFloatList "NodeStrainZZ" "NodeData" "" true
  let obj := addLockedProperty obj .pFloatList "NodeStrainXY" "NodeData" "" true
  let obj := addLockedProperty obj .pFloatList "NodeStrainXZ" "NodeData" "" true
  let obj := addLockedProperty obj .pFloatList "NodeStrainYZ" "NodeData" "" true
  let obj := addLockedProperty obj .pFloatList "CriticalStrainRatio" "NodeData" "" true
  let obj ← privilegedSet obj "Stats" (.floatList (List.replicate 26 0))
  pure obj

/-- The store of a freshly constructed `ResultMechanical` instance. -/
def resultMechanicalStore : Store :=
  match resultMechanicalInit resultBaseStore with
  | .ok s => s
  | .error _ => []

/-- Modelled from the spec: the store an Elmer equation base object hands
to the variant constructor.  The equation base classes are outside
`src/`; per the spec the base attribute set contributes the ordering
priority. -/
def equationBaseStore : Store :=
  [⟨⟨"Priority", .pInt, "Base", "Priority of the equation", false, false⟩,
    .int 0⟩]

/-- `magnetodynamic.Proxy.__init__` (magnetodynamic.py lines 44-139):
declares the magnetodynamic properties, sets `IsHarmonic`,
`AngularFrequency` and `Priority`, then declares the post-processor
toggles and sets every one of them `False` except `CalculateNodalFields`. -/
def magnetodynamicInit (obj : Store) : Except SchemaError Store := do
  let obj := addLockedProperty obj .pBool "IsHarmonic" "Magnetodynamic"
    "If the magnetic source is harmonically driven" false
  let obj := addLockedProperty obj .pFrequency "AngularFrequency" "Magnetodynamic"
    "Frequency of the driving current" false
  let obj := addLockedProperty obj .pBool "UsePiolaTransform" "Magnetodynamic"
    "Must be True if basis functions for edge element interpolation are selected" false
  let obj := addLockedProperty obj .pBool "QuadraticApproximation" "Magnetodynamic"
    "Enables second-order approximation of driving current" false
  let obj := addLockedProperty obj .pBool "StaticConductivity" "Magnetodynamic"
    "See Elmer models manual for info" false
  let obj := addLockedProperty obj .pBool "FixInputCurrentDensity" "Magnetodynamic"
    "Ensures divergence-freeness of current density" false
  let obj := addLockedProperty obj .pBool "AutomatedSourceProjectionBCs" "Magnetodynamic"
    "See Elmer models manual for info" false
  let obj := addLockedProperty obj .pBool "UseLagrangeGauge" "Magnetodynamic"
    "See Elmer models manual for info" false
  let obj := addLockedProperty obj .pFloat "LagrangeGaugePenalizationCoefficient"
    "Magnetodynamic" "See Elmer models manual for info" false
  let obj := addLockedProperty obj .pBool "UseTreeGauge" "Magnetodynamic"
    "See Elmer models manual for info" false
  let obj := addLockedProperty obj .pBool "LinearSystemRefactorize" "Linear System" "" false
  let obj ← privilegedSet obj "IsHarmonic" (.bool false)
  let obj ← privilegedSet obj "AngularFrequency" (.frequency 0)
  let obj ← privilegedSet obj "Priority" (.int 10)
  let obj := addLockedProperty obj .pBool "CalculateCurrentDensity" "Results" "" false
  let obj := addLockedProperty obj .pBool "CalculateElectricField" "Results" "" false
  let obj := addLockedProperty obj .pBool "CalculateElementalFields" "Results" "" false
  let obj := addLockedProperty obj .pBool "CalculateHarmonicLoss" "Results" "" false
  let obj := addLockedProperty obj .pBool "CalculateJouleHeating" "Results" "" false
  let obj := addLockedProperty obj .pBool "CalculateMagneticFieldStrength" "Results" "" false
  let obj := addLockedProperty obj .pBool "CalculateMaxwellStress" "Results" "" false
  let obj := addLockedProperty obj .pBool "CalculateNodalFields" "Results" "" false
  let obj := addLockedProperty obj .pBool "CalculateNodalForces" "Results" "" false
  let obj := addLockedProperty obj .pBool "CalculateNodalHeating" "Results" "" false
  let obj := addLockedProperty obj .pBool "DiscontinuousBodies" "Results" "" false
  let obj ← privilegedSet obj "CalculateCurrentDensity" (.bool false)
  let obj ← privilegedSet obj "CalculateElectricField" (.bool false)
  let obj ← privilegedSet obj "CalculateElementalFields" (.bool false)
  let obj ← privilegedSet obj "CalculateHarmonicLoss" (.bool false)
  let obj ← privilegedSet obj "CalculateJouleHeating" (.bool false)
  let obj ← privilegedSet obj "CalculateMagneticFieldStrength" (.bool false)
  let obj ← privilegedSet obj "CalculateMaxwellStress" (.bool false)
  let obj ← privilegedSet obj "CalculateNodalFields" (.bool true)
  let obj ← privilegedSet obj "CalculateNodalForces" (.bool false)
  let obj ← privilegedSet obj "CalculateNodalHeating" (.bool false)
  let obj ← privilegedSet obj "DiscontinuousBodies" (.bool false)
  pure obj

/-- The store of a freshly constructed Magnetodynamic equation instance. -/
def magnetodynamicStore : Store :=
  match magnetodynamicInit equationBaseStore with
  | .ok s => s
  | .error _ => []

/-- Modelled from the spec: insert one equation instance (declaration
index, priority) into an already-resolved suffix, before every entry of
priority greater than or equal to its own, so that the earlier-declared
instance wins ties. -/
def insertByPriority (x : Nat × Int) : List (Nat × Int) → List (Nat × Int)
  | [] => [x]
  | y :: ys => if y.2 < x.2 then y :: insertByPriority x ys else x :: y :: ys

/-- Modelled from the spec: the resolved evaluation order of equation
instances attached to one context — ascending by `Priority`, ties broken
by declaration order.  The resolution is host/solver code outside
`src/`. -/
def resolveOrder : List (Nat × Int) → List (Nat × Int)
  | [] => []
  | x :: xs => insertByPriority x (resolveOrder xs)

/-- `[min0, avg0, max0, min1, avg1, max1, ...]`: the flattening of a list
of (min, avg, max) statistics triples, the legacy `Stats` layout. -/
def joinTriples : List (Rat × Rat × Rat) → List Rat
  | [] => []
  | (a, b, c) :: ts => a :: b :: c :: joinTriples ts

/-- `[min0, max0, min1, max1, ...]`: the flattening of the same triples
with the avg slots dropped, the current `Stats` layout. -/
def joinPairs : List (Rat × Rat × Rat) → List Rat
  | [] => []
  | (a, _, c) :: ts => a :: c :: joinPairs ts

/-- A concrete legacy store: `StressValues` present and a 39-entry
`Stats` list, as written by pre-migration program versions. -/
def legacyStore : Store :=
  [⟨⟨"StressValues", .pFloatList, "NodeData", "", false, false⟩, .floatList [1, 2]⟩,
   ⟨⟨"Stats", .pFloatList, "Fem", "", false, false⟩,
    .floatList (joinTriples (List.replicate 13 (0, 1, 2)))⟩]

/-- The concrete legacy store after one migration pass. -/
def legacyMigrated : Store :=
  match onDocumentRestored legacyStore with
  | .ok s => s
  | .error _ => []

/-! ### Store lemmas -/

theorem except_bind_ok {α : Type} (a : α) (f : α → Except SchemaError Store) :
    (Except.ok a : Except SchemaError α).bind f = f a := rfl

theorem except_bind_error {α : Type} (e : SchemaError)
    (f : α → Except SchemaError Store) :
    (Except.error e : Except SchemaError α).bind f = .error e := rfl

theorem except_bind_congr {α : Type} (f : Store → Store) (x : Except SchemaError α)
    (G G' : α → Except SchemaError Store)
    (h : ∀ v, G' v = Except.map f (G v)) :
    x.bind G' = Except.map f (x.bind G) := by
  cases x with
  | error e => rfl
  | ok v => exact h v

theorem except_map_bind (f : Store → Store) (x : Except SchemaError Store)
    (G G' : Store → Except SchemaError Store)
    (h : ∀ s, G' (f s) = Except.map f (G s)) :
    (Except.map f x).bind G' = Except.map f (x.bind G) := by
  cases x with
  | error e => rfl
  | ok s => exact h s

theorem findEntry_writeValue_ne (n m : String) (v : Value) (h : m ≠ n) :
    ∀ s : Store, findEntry (writeValue s n v) m = findEntry s m := by
  intro s
  induction s with
  | nil => rfl
  | cons a s ih =>
    simp only [writeValue]
    by_cases ha : a.descr.name = n
    · have hnm : ¬ (n = m) := fun hh => h hh.symm
      simp [findEntry, ha, hnm]
    · simp only [if_neg ha, findEntry]
      by_cases hm : a.descr.name = m
      · simp [hm]
      · simp [hm, ih]

theorem findEntry_writeValue_self (n : String) (v : Value) :
    ∀ s : Store, findEntry (writeValue s n v) n =
      (findEntry s n).map (fun a => { a with value := v }) := by
  intro s
  induction s with
  | nil => rfl
  | cons a s ih =>
    simp only [writeValue]
    by_cases ha : a.descr.name = n
    · simp [findEntry, ha]
    · simp only [if_neg ha, findEntry, ha, ite_false, ih]

theorem hasProp_writeValue (n m : String) (v : Value) (s : Store) :
    hasProp (writeValue s n v) m = hasProp s m := by
  by_cases h : m = n
  · subst h
    rw [hasProp, hasProp, findEntry_writeValue_self]
    cases findEntry s m <;> simp
  · simp [hasProp, findEntry_writeValue_ne n m v h]

theorem findEntry_clearLock_ne (n m : String) (h : m ≠ n) :
    ∀ s : Store, findEntry (clearLock s n) m = findEntry s m := by
  intro s
  induction s with
  | nil => rfl
  | cons a s ih =>
    simp only [clearLock]
    by_cases ha : a.descr.name = n
    · have hnm : ¬ (n = m) := fun hh => h hh.symm
      simp [findEntry, ha, hnm]
    · simp only [if_neg ha, findEntry]
      by_cases hm : a.descr.name = m
      · simp [hm]
      · simp [hm, ih]

theorem findEntry_clearLock_self (n : String) :
    ∀ s : Store, findEntry (clearLock s n) n =
      (findEntry s n).map (fun a => { a with descr := { a.descr with locked := false } }) := by
  intro s
  induction s with
  | nil => rfl
  | cons a s ih =>
    simp only [clearLock]
    by_cases ha : a.descr.name = n
    · simp [findEntry, ha]
    · simp [findEntry, ha, ih]

theorem findEntry_removeAll_self (n : String) :
    ∀ s : Store, findEntry (removeAll s n) n = none := by
  intro s
  induction s with
  | nil => rfl
  | cons a s ih =>
    simp only [removeAll]
    by_cases ha : a.descr.name = n
    · simp [ha, ih]
    · simp [findEntry, ha, ih]

theorem findEntry_removeAll_ne (n m : String) (h : m ≠ n) :
    ∀ s : Store, findEntry (removeAll s n) m = findEntry s m := by
  intro s
  induction s with
  | nil => rfl
  | cons a s ih =>
    simp only [removeAll]
    by_cases ha : a.descr.name = n
    · have hnm : ¬ (n = m) := fun hh => h hh.symm
      simp [findEntry, ha, hnm, ih]
    · simp only [if_neg ha, findEntry]
      by_cases hm : a.descr.name = m
      · simp [hm]
      · simp [hm, ih]

theorem findEntry_append_single (s : Store) (x : Attribute) (m : String) :
    findEntry (s ++ [x]) m =
      match findEntry s m with
      | some a => some a
      | none => if x.descr.name = m then some x else none := by
  induction s with
  | nil => simp [findEntry]
  | cons a s ih =>
    simp only [List.cons_append, findEntry]
    by_cases hm : a.descr.name = m
    · simp [hm]
    · simp [hm, ih]

theorem findEntry_addLockedProperty_ne (s : Store) (t : PropType) (n g d : String)
    (ro : Bool) (m : String) (h : m ≠ n) :
    findEntry (addLockedProperty s t n g d ro) m = findEntry s m := by
  simp only [addLockedProperty]
  by_cases hp : hasProp s n
  · simp [hp]
  · simp only [hp, Bool.false_eq_true, if_neg, ite_false]
    rw [findEntry_append_single]
    have : ¬ (n = m) := fun hh => h hh.symm
    simp [this]
    cases findEntry s m <;> simp

theorem findEntry_addLockedProperty_absent (s : Store) (t : PropType) (n g d : String)
    (ro : Bool) (h : hasProp s n = false) :
    findEntry (addLockedProperty s t n g d ro) n =
      some ⟨⟨n, t, g, d, ro, true⟩, t.defaultValue⟩ := by
  have hfe : findEntry s n = none := by
    cases hx : findEntry s n with
    | none => rfl
    | some a => rw [hasProp, hx] at h; simp at h
  simp only [addLockedProperty, h, Bool.false_eq_true, if_false]
  rw [findEntry_append_single, hfe]
  simp

theorem hasProp_addLockedProperty_other (s : Store) (t : PropType) (n g d : String)
    (ro : Bool) (m : String) (h : m ≠ n) :
    hasProp (addLockedProperty s t n g d ro) m = hasProp s m := by
  simp [hasProp, findEntry_addLockedProperty_ne s t n g d ro m h]

/-! ### Commutation of store operations on distinct names -/

theorem writeValue_comm (n m : String) (v w : Value) (h : n ≠ m) :
    ∀ s : Store, writeValue (writeValue s m w) n v = writeValue (writeValue s n v) m w := by
  intro s
  induction s with
  | nil => rfl
  | cons a s ih =>
    have hmn : ¬ (m = n) := fun hh => h hh.symm
    by_cases hm : a.descr.name = m
    · have hn : ¬ a.descr.name = n := fun hh => h (by rw [← hh, hm])
      simp [writeValue, hm, hn, hmn]
    · by_cases hn : a.descr.name = n
      · simp [writeValue, hm, hn, h]
      · simp [writeValue, hm, hn, ih]

theorem clearLock_writeValue_comm (n m : String) (w : Value) (h : n ≠ m) :
    ∀ s : Store, clearLock (writeValue s m w) n = writeValue (clearLock s n) m w := by
  intro s
  induction s with
  | nil => rfl
  | cons a s ih =>
    have hmn : ¬ (m = n) := fun hh => h hh.symm
    by_cases hm : a.descr.name = m
    · have hn : ¬ a.descr.name = n := fun hh => h (by rw [← hh, hm])
      simp [writeValue, clearLock, hm, hn, hmn]
    · by_cases hn : a.descr.name = n
      · simp [writeValue, clearLock, hm, hn, h]
      · simp [writeValue, clearLock, hm, hn, ih]

theorem removeAll_writeValue_comm (n m : String) (w : Value) (h : n ≠ m) :
    ∀ s : Store, removeAll (writeValue s m w) n = writeValue (removeAll s n) m w := by
  intro s
  induction s with
  | nil => rfl
  | cons a s ih =>
    have hmn : ¬ (m = n) := fun hh => h hh.symm
    by_cases hm : a.descr.name = m
    · have hn : ¬ a.descr.name = n := fun hh => h (by rw [← hh, hm])
      simp [writeValue, removeAll, hm, hn, hmn]
    · by_cases hn : a.descr.name = n
      · simp [writeValue, removeAll, hm, hn, h, ih]
      · simp [writeValue, removeAll, hm, hn, ih]

theorem writeValue_append_ne (m : String) (w : Value) (x : Attribute)
    (h : ¬ x.descr.name = m) :
    ∀ s : Store, writeValue (s ++ [x]) m w = writeValue s m w ++ [x] := by
  intro s
  induction s with
  | nil => simp [writeValue, h]
  | cons a s ih =>
    by_cases hm : a.descr.name = m
    · simp [writeValue, hm]
    · simp [writeValue, hm, ih]

theorem addLockedProperty_writeValue_comm (t : PropType) (n g d : String) (ro : Bool)
    (m : String) (w : Value) (h : ¬ (n = m)) (s : Store) :
    addLockedProperty (writeValue s m w) t n g d ro =
      writeValue (addLockedProperty s t n g d ro) m w := by
  simp only [addLockedProperty, hasProp_writeValue]
  by_cases hp : hasProp s n
  · simp [hp]
  · simp only [hp, Bool.false_eq_true, if_false]
    rw [writeValue_append_ne m w _ h]

/-! ### The deletion loop -/

theorem delMids_cons3 {α : Type} :
    ∀ (k : Nat) (a b c : α) (m : List α),
      delMids (k + 1) (a :: b :: c :: m) = a :: c :: delMids k m := by
  intro k
  induction k with
  | zero => intro a b c m; rfl
  | succ k ih =>
    intro a b c m
    show delMids (k + 1) ((a :: b :: c :: m).eraseIdx (3 * (k + 1 + 1) + 1)) =
      a :: c :: delMids (k + 1) m
    have h1 : 3 * (k + 1 + 1) + 1 = (3 * (k + 1) + 1) + 1 + 1 + 1 := by omega
    rw [h1]
    show delMids (k + 1) (a :: b :: c :: m.eraseIdx (3 * (k + 1) + 1)) =
      a :: c :: delMids (k + 1) m
    rw [ih]
    rfl

theorem delMids_joinTriples :
    ∀ (ts : List (Rat × Rat × Rat)) (n : Nat), ts.length = n + 1 →
      delMids n (joinTriples ts) = joinPairs ts := by
  intro ts
  induction ts with
  | nil => intro n h; simp at h
  | cons p ts ih =>
    intro n h
    obtain ⟨a, b, c⟩ := p
    cases n with
    | zero =>
      have hts : ts = [] := by
        cases ts with
        | nil => rfl
        | cons q ts => simp at h
      subst hts
      rfl
    | succ k =>
      have hlen : ts.length = k + 1 := by
        simpa using h
      show delMids (k + 1) (a :: b :: c :: joinTriples ts) = a :: c :: joinPairs ts
      rw [delMids_cons3, ih k hlen]

theorem joinTriples_length (ts : List (Rat × Rat × Rat)) :
    (joinTriples ts).length = 3 * ts.length := by
  induction ts with
  | nil => rfl
  | cons p ts ih => obtain ⟨a, b, c⟩ := p; simp [joinTriples, ih]; omega

theorem joinPairs_length (ts : List (Rat × Rat × Rat)) :
    (joinPairs ts).length = 2 * ts.length := by
  induction ts with
  | nil => rfl
  | cons p ts ih => obtain ⟨a, b, c⟩ := p; simp [joinPairs, ih]; omega

theorem delMids_length {α : Type} :
    ∀ (k : Nat) (l : List α), 3 * (k + 1) ≤ l.length →
      (delMids k l).length = l.length - (k + 1) := by
  intro k
  induction k with
  | zero =>
    intro l h
    show (l.eraseIdx 1).length = l.length - 1
    rw [List.length_eraseIdx, if_pos (by omega : 1 < l.length)]
  | succ k ih =>
    intro l h
    show (delMids k (l.eraseIdx (3 * (k + 1) + 1))).length = l.length - (k + 1 + 1)
    have hix : 3 * (k + 1) + 1 < l.length := by omega
    have he : (l.eraseIdx (3 * (k + 1) + 1)).length = l.length - 1 := by
      rw [List.length_eraseIdx, if_pos hix]
    rw [ih _ (by omega), he]
    omega

theorem eraseMids_listLen_39 (v : Value) (h : v.listLen = some 39) :
    v.eraseMids.listLen = some 26 := by
  cases v with
  | floatList l =>
    have hl : l.length = 39 := by simpa [Value.listLen] using h
    simp [Value.eraseMids, Value.listLen, delMids_length 12 l (by omega), hl]
  | vectorList l =>
    have hl : l.length = 39 := by simpa [Value.listLen] using h
    simp [Value.eraseMids, Value.listLen, delMids_length 12 l (by omega), hl]
  | bool b => simp [Value.listLen] at h
  | int x => simp [Value.listLen] at h
  | float x => simp [Value.listLen] at h
  | string x => simp [Value.listLen] at h
  | frequency x => simp [Value.listLen] at h

theorem eraseMids_ptype (v : Value) : v.eraseMids.ptype = v.ptype := by
  cases v <;> rfl

/-! ### Behaviour of the Stats shape-reduction rule -/

theorem migrateStats_shape (s s' : Store) (h : findEntry s' "Stats" = findEntry s "Stats") :
    (migrateStats s = .ok s ∧ migrateStats s' = .ok s') ∨
    (∃ w, migrateStats s = .ok (writeValue s "Stats" w) ∧
      migrateStats s' = .ok (writeValue s' "Stats" w)) ∨
    (∃ e, migrateStats s = .error e ∧ migrateStats s' = .error e) := by
  cases hfe : findEntry s "Stats" with
  | none =>
    right; right
    refine ⟨.unknownAttribute, ?_, ?_⟩ <;> simp [migrateStats, h, hfe]
  | some a =>
    cases hlen : a.value.listLen with
    | none =>
      right; right
      refine ⟨.typeMismatch, ?_, ?_⟩ <;> simp [migrateStats, h, hfe, hlen]
    | some n =>
      by_cases h39 : n = 39
      · subst h39
        by_cases hty : a.descr.ptype = a.value.eraseMids.ptype
        · right; left
          refine ⟨a.value.eraseMids, ?_, ?_⟩ <;>
            simp [migrateStats, privilegedSet, h, hfe, hlen, hty]
        · right; right
          refine ⟨.typeMismatch, ?_, ?_⟩ <;>
            simp [migrateStats, privilegedSet, h, hfe, hlen, hty]
      · left
        constructor <;> simp [migrateStats, h, hfe, hlen, h39]

theorem migrateStats_ok_cases (s t : Store) (h : migrateStats s = .ok t) :
    t = s ∨ ∃ w, t = writeValue s "Stats" w := by
  rcases migrateStats_shape s s rfl with ⟨h1, _⟩ | ⟨w, h1, _⟩ | ⟨e, h1, _⟩
  · rw [h1] at h
    left
    exact (Except.ok.injEq _ _ ▸ h).symm
  · rw [h1] at h
    right
    exact ⟨w, (Except.ok.injEq _ _ ▸ h).symm⟩
  · rw [h1] at h
    cases h

theorem migrateStats_findEntry_other (s t : Store) (h : migrateStats s = .ok t)
    (m : String) (hm : m ≠ "Stats") : findEntry t m = findEntry s m := by
  rcases migrateStats_ok_cases s t h with h1 | ⟨w, h1⟩
  · rw [h1]
  · rw [h1, findEntry_writeValue_ne _ _ _ hm]

theorem migrateStats_hasProp (s t : Store) (h : migrateStats s = .ok t) (m : String) :
    hasProp t m = hasProp s m := by
  rcases migrateStats_ok_cases s t h with h1 | ⟨w, h1⟩
  · rw [h1]
  · rw [h1, hasProp_writeValue]

theorem migrateStats_stats_shape (s t : Store) (h : migrateStats s = .ok t) :
    ∃ a n, findEntry t "Stats" = some a ∧ a.value.listLen = some n ∧ n ≠ 39 := by
  unfold migrateStats privilegedSet at h
  cases hfe : findEntry s "Stats" with
  | none => simp [hfe] at h
  | some a =>
    simp only [hfe] at h
    cases hlen : a.value.listLen with
    | none => simp [hlen] at h
    | some n =>
      simp only [hlen] at h
      by_cases h39 : n = 39
      · subst h39
        by_cases hty : a.descr.ptype = a.value.eraseMids.ptype
        · simp only [if_pos rfl, if_pos hty, if_true, eq_self_iff_true,
            Except.ok.injEq] at h
          subst h
          refine ⟨{ a with value := a.value.eraseMids }, 26, ?_, ?_, by omega⟩
          · rw [findEntry_writeValue_self, hfe]
            rfl
          · exact eraseMids_listLen_39 a.value hlen
        · simp [hty] at h
      · simp only [if_neg h39, Except.ok.injEq] at h
        subst h
        exact ⟨a, n, hfe, hlen, h39⟩

/-! ### Behaviour of the StressValues rename rule -/

theorem findEntry_declareVonMises_ne (s : Store) (m : String) (h : m ≠ "vonMises") :
    findEntry (declareVonMises s) m = findEntry s m :=
  findEntry_addLockedProperty_ne s _ _ _ _ _ m h

theorem migrateStressValues_ok_struct (s u : Store)
    (hsv : hasProp s "StressValues" = true)
    (h : migrateStressValues s = .ok u) :
    ∃ a c,
      findEntry s "StressValues" = some a ∧
      findEntry (declareVonMises s) "vonMises" = some c ∧
      c.descr.ptype = a.value.ptype ∧
      u = removeAll (clearLock (writeValue (declareVonMises s) "vonMises" a.value)
            "StressValues") "StressValues" := by
  have hne : ("StressValues" : String) ≠ "vonMises" := by decide
  unfold migrateStressValues readValue at h
  rw [if_pos hsv] at h
  cases hfa : findEntry (declareVonMises s) "StressValues" with
  | none =>
    simp only [hfa, except_bind_error] at h
    exact Except.noConfusion h
  | some a =>
    simp only [hfa, except_bind_ok] at h
    unfold privilegedSet at h
    cases hfc : findEntry (declareVonMises s) "vonMises" with
    | none =>
      simp only [hfc, except_bind_error] at h
      exact Except.noConfusion h
    | some c =>
      simp only [hfc] at h
      by_cases hty : c.descr.ptype = a.value.ptype
      · simp only [if_pos hty, except_bind_ok] at h
        unfold setPropertyStatus at h
        have hf2 : findEntry (writeValue (declareVonMises s) "vonMises" a.value)
            "StressValues" = some a := by
          rw [findEntry_writeValue_ne _ _ _ hne]
          exact hfa
        simp only [hf2, if_pos rfl, if_true, except_bind_ok] at h
        unfold removeProperty at h
        have hf3 : findEntry (clearLock (writeValue (declareVonMises s) "vonMises" a.value)
            "StressValues") "StressValues" =
            some { a with descr := { a.descr with locked := false } } := by
          rw [findEntry_clearLock_self, hf2]
          rfl
        simp only [hf3, Bool.false_eq_true, if_false, Except.ok.injEq] at h
        subst h
        refine ⟨a, c, ?_, rfl, hty, rfl⟩
        rw [← findEntry_declareVonMises_ne s _ hne]
        exact hfa
      · simp only [if_neg hty, except_bind_error] at h
        exact Except.noConfusion h

theorem migrateStressValues_not_fired (s u : Store)
    (hsv : hasProp s "StressValues" = false)
    (h : migrateStressValues s = .ok u) : u = s := by
  unfold migrateStressValues at h
  rw [if_neg (by simp [hsv])] at h
  exact (Except.ok.injEq _ _ ▸ h).symm

theorem migrateStressValues_no_SV (s u : Store)
    (h : migrateStressValues s = .ok u) : hasProp u "StressValues" = false := by
  by_cases hsv : hasProp s "StressValues" = true
  · obtain ⟨a, c, _, _, _, hu⟩ := migrateStressValues_ok_struct s u hsv h
    rw [hu]
    simp [hasProp, findEntry_removeAll_self]
  · have hsv' : hasProp s "StressValues" = false := by
      cases hx : hasProp s "StressValues"
      · rfl
      · exact absurd hx hsv
    rw [migrateStressValues_not_fired s u hsv' h]
    exact hsv'

theorem migrateStressValues_findEntry_other (s u : Store)
    (h : migrateStressValues s = .ok u) (m : String)
    (h1 : m ≠ "StressValues") (h2 : m ≠ "vonMises") :
    findEntry u m = findEntry s m := by
  by_cases hsv : hasProp s "StressValues" = true
  · obtain ⟨a, c, _, _, _, hu⟩ := migrateStressValues_ok_struct s u hsv h
    rw [hu, findEntry_removeAll_ne _ _ h1, findEntry_clearLock_ne _ _ h1,
      findEntry_writeValue_ne _ _ _ h2, findEntry_declareVonMises_ne _ _ h2]
  · have hsv' : hasProp s "StressValues" = false := by
      cases hx : hasProp s "StressValues"
      · rfl
      · exact absurd hx hsv
    rw [migrateStressValues_not_fired s u hsv' h]

theorem migrateStressValues_vonMises_value (s u : Store)
    (hsv : hasProp s "StressValues" = true)
    (h : migrateStressValues s = .ok u) :
    ∃ a b, findEntry s "StressValues" = some a ∧
      findEntry u "vonMises" = some b ∧ b.value = a.value := by
  obtain ⟨a, c, ha, hc, hty, hu⟩ := migrateStressValues_ok_struct s u hsv h
  refine ⟨a, { c with value := a.value }, ha, ?_, rfl⟩
  have hnv : ("vonMises" : String) ≠ "StressValues" := by decide
  rw [hu, findEntry_removeAll_ne _ _ hnv, findEntry_clearLock_ne _ _ hnv,
    findEntry_writeValue_self, hc]
  rfl

theorem readValue_writeValue_ne (s : Store) (m : String) (w : Value) (n : String)
    (h : n ≠ m) : readValue (writeValue s m w) n = readValue s n := by
  unfold readValue
  rw [findEntry_writeValue_ne _ _ _ h]

theorem privilegedSet_writeValue (s : Store) (m : String) (w : Value) (n : String)
    (v : Value) (h : n ≠ m) :
    privilegedSet (writeValue s m w) n v =
      Except.map (fun u => writeValue u m w) (privilegedSet s n v) := by
  unfold privilegedSet
  rw [findEntry_writeValue_ne _ _ _ h]
  cases hfe : findEntry s n with
  | none => rfl
  | some c =>
    by_cases hty : c.descr.ptype = v.ptype
    · simp only [if_pos hty, Except.map]
      rw [writeValue_comm n m v w h]
    · simp only [if_neg hty, Except.map]

theorem setPropertyStatus_writeValue (s : Store) (m : String) (w : Value)
    (n st : String) (h : n ≠ m) :
    setPropertyStatus (writeValue s m w) n st =
      Except.map (fun u => writeValue u m w) (setPropertyStatus s n st) := by
  unfold setPropertyStatus
  rw [findEntry_writeValue_ne _ _ _ h]
  cases hfe : findEntry s n with
  | none => rfl
  | some c =>
    by_cases hst : st = "-LockDynamic"
    · simp only [if_pos hst, Except.map]
      rw [clearLock_writeValue_comm n m w h]
    · simp only [if_neg hst, Except.map]

theorem removeProperty_writeValue (s : Store) (m : String) (w : Value) (n : String)
    (h : n ≠ m) :
    removeProperty (writeValue s m w) n =
      Except.map (fun u => writeValue u m w) (removeProperty s n) := by
  unfold removeProperty
  rw [findEntry_writeValue_ne _ _ _ h]
  cases hfe : findEntry s n with
  | none => rfl
  | some c =>
    by_cases hlk : c.descr.locked = true
    · simp only [if_pos hlk, Except.map]
    · simp only [if_neg hlk, Except.map]
      rw [removeAll_writeValue_comm n m w h]

theorem migrateStressValues_writeStats (s : Store) (w : Value) :
    migrateStressValues (writeValue s "Stats" w) =
      Except.map (fun u => writeValue u "Stats" w) (migrateStressValues s) := by
  have hSVS : ("StressValues" : String) ≠ "Stats" := by decide
  have hvMS : ("vonMises" : String) ≠ "Stats" := by decide
  unfold migrateStressValues
  rw [hasProp_writeValue]
  by_cases hsv : hasProp s "StressValues" = true
  · rw [if_pos hsv, if_pos hsv]
    have hdecl : declareVonMises (writeValue s "Stats" w) =
        writeValue (declareVonMises s) "Stats" w := by
      unfold declareVonMises
      exact addLockedProperty_writeValue_comm _ _ _ _ _ _ _ (by decide) s
    rw [hdecl, readValue_writeValue_ne _ _ _ _ hSVS]
    refine except_bind_congr _ _ _ _ ?_
    intro v
    rw [privilegedSet_writeValue _ _ _ _ _ hvMS]
    refine except_map_bind _ _ _ _ ?_
    intro s2
    rw [setPropertyStatus_writeValue _ _ _ _ _ hSVS]
    refine except_map_bind _ _ _ _ ?_
    intro s3
    exact removeProperty_writeValue _ _ _ _ hSVS
  · rw [if_neg hsv, if_neg hsv]
    rfl

/-! ### Rule-order independence -/

theorem migration_order_outcome (s : Store) :
    onDocumentRestored s = onDocumentRestoredSwapped s ∨
    ((∃ e, onDocumentRestored s = .error e) ∧
     (∃ e, onDocumentRestoredSwapped s = .error e)) := by
  unfold onDocumentRestored onDocumentRestoredSwapped
  cases hmsv : migrateStressValues s with
  | error e1 =>
    cases hms : migrateStats s with
    | error e2 =>
      right
      exact ⟨⟨e1, by rw [except_bind_error]⟩, ⟨e2, by rw [except_bind_error]⟩⟩
    | ok u =>
      rcases migrateStats_ok_cases s u hms with hu | ⟨w, hu⟩
      · subst hu
        left
        rw [except_bind_error, except_bind_ok, hmsv]
      · subst hu
        left
        rw [except_bind_error, except_bind_ok, migrateStressValues_writeStats, hmsv]
        rfl
  | ok s1 =>
    have hfs : findEntry s1 "Stats" = findEntry s "Stats" :=
      migrateStressValues_findEntry_other s s1 hmsv "Stats" (by decide) (by decide)
    cases hms : migrateStats s with
    | error e2 =>
      rcases migrateStats_shape s s1 hfs with ⟨ha, _⟩ | ⟨w2, ha, _⟩ | ⟨e, ha, hb⟩
      · exact Except.noConfusion (ha.symm.trans hms)
      · exact Except.noConfusion (ha.symm.trans hms)
      · right
        refine ⟨⟨e, ?_⟩, ⟨e2, ?_⟩⟩
        · rw [except_bind_ok, hb]
        · rw [except_bind_error]
    | ok u =>
      rcases migrateStats_shape s s1 hfs with ⟨ha, hb⟩ | ⟨w2, ha, hb⟩ | ⟨e, ha, _⟩
      · have hu : u = s := (Except.ok.inj (ha.symm.trans hms)).symm
        subst hu
        left
        rw [except_bind_ok, except_bind_ok, hb, hmsv]
      · have hu : u = writeValue s "Stats" w2 := (Except.ok.inj (ha.symm.trans hms)).symm
        subst hu
        left
        rw [except_bind_ok, except_bind_ok, hb, migrateStressValues_writeStats, hmsv]
        rfl
      · exact Except.noConfusion (ha.symm.trans hms)

/-! ### Priority ordering -/

theorem insertByPriority_perm (x : Nat × Int) (l : List (Nat × Int)) :
    List.Perm (insertByPriority x l) (x :: l) := by
  induction l with
  | nil => exact List.Perm.refl _
  | cons y ys ih =>
    by_cases h : y.2 < x.2
    · simp only [insertByPriority, if_pos h]
      exact (ih.cons y).trans (List.Perm.swap x y ys)
    · simp only [insertByPriority, if_neg h]
      exact List.Perm.refl _

theorem insertByPriority_sorted (x : Nat × Int) (l : List (Nat × Int))
    (h : l.Pairwise (fun a b => a.2 ≤ b.2)) :
    (insertByPriority x l).Pairwise (fun a b => a.2 ≤ b.2) := by
  induction l with
  | nil => simp [insertByPriority]
  | cons y ys ih =>
    rcases List.pairwise_cons.mp h with ⟨hy, hys⟩
    by_cases hlt : y.2 < x.2
    · simp only [insertByPriority, if_pos hlt]
      refine List.pairwise_cons.mpr ⟨?_, ih hys⟩
      intro b hb
      have hb2 : b ∈ x :: ys := (insertByPriority_perm x ys).mem_iff.mp hb
      rcases List.mem_cons.mp hb2 with hbx | hbys
      · subst hbx
        exact le_of_lt hlt
      · exact hy b hbys
    · simp only [insertByPriority, if_neg hlt]
      refine List.pairwise_cons.mpr ⟨?_, h⟩
      intro b hb
      rcases List.mem_cons.mp hb with hby | hbys
      · subst hby
        exact le_of_not_lt hlt
      · exact le_trans (le_of_not_lt hlt) (hy b hbys)

theorem resolveOrder_perm (l : List (Nat × Int)) : List.Perm (resolveOrder l) l := by
  induction l with
  | nil => exact List.Perm.refl _
  | cons x xs ih =>
    exact (insertByPriority_perm x (resolveOrder xs)).trans (ih.cons x)

theorem resolveOrder_sorted (l : List (Nat × Int)) :
    (resolveOrder l).Pairwise (fun a b => a.2 ≤ b.2) := by
  induction l with
  | nil => simp [resolveOrder]
  | cons x xs ih => exact insertByPriority_sorted x (resolveOrder xs) ih

/-! ### Claim theorems -/

/-- C1: the migration pass is idempotent.  Whenever
`onDocumentRestored` succeeds with result `t`, running it again on `t`
returns `t` unchanged; moreover after the first pass the rename
predicate (`StressValues` present) is false and the shape predicate
(`Stats` of length 39) is false. -/
theorem migration_idempotent (s t : Store) (h : onDocumentRestored s = .ok t) :
    onDocumentRestored t = .ok t ∧
    hasProp t "StressValues" = false ∧
    (∀ a, findEntry t "Stats" = some a → a.value.listLen ≠ some 39) := by
  unfold onDocumentRestored at h
  cases hmsv : migrateStressValues s with
  | error e =>
    rw [hmsv, except_bind_error] at h
    exact Except.noConfusion h
  | ok s1 =>
    rw [hmsv, except_bind_ok] at h
    have hSV1 : hasProp s1 "StressValues" = false := migrateStressValues_no_SV s s1 hmsv
    have hSVt : hasProp t "StressValues" = false := by
      rw [migrateStats_hasProp s1 t h]
      exact hSV1
    obtain ⟨a, n, hfa, hlen, h39⟩ := migrateStats_stats_shape s1 t h
    refine ⟨?_, hSVt, ?_⟩
    · unfold onDocumentRestored
      have ht1 : migrateStressValues t = .ok t := by
        unfold migrateStressValues
        rw [if_neg (by simp [hSVt])]
      rw [ht1, except_bind_ok]
      unfold migrateStats
      simp only [hfa, hlen]
      rw [if_neg h39]
    · intro b hb
      rw [hfa] at hb
      obtain rfl : a = b := Option.some.inj hb
      rw [hlen]
      intro hc
      exact h39 (Option.some.inj hc)

set_option maxRecDepth 20000 in
/-- C1 witness: a concrete legacy store (`StressValues` present, 39-entry
`Stats`) migrates successfully, and the theorem applies to it. -/
theorem migration_idempotent_witness :
    onDocumentRestored legacyStore = .ok legacyMigrated ∧
    (onDocumentRestored legacyMigrated = .ok legacyMigrated ∧
     hasProp legacyMigrated "StressValues" = false ∧
     (∀ a, findEntry legacyMigrated "Stats" = some a → a.value.listLen ≠ some 39)) :=
  ⟨rfl, migration_idempotent legacyStore legacyMigrated rfl⟩

/-- C4: forward safety.  On a store with no `StressValues` attribute and
a list-valued `Stats` attribute whose length is not 39, the migration
pass returns the store unchanged and raises no error. -/
theorem migration_forward_safety (s : Store) (a : Attribute) (n : Nat)
    (hsv : hasProp s "StressValues" = false)
    (hfe : findEntry s "Stats" = some a)
    (hlen : a.value.listLen = some n) (h39 : n ≠ 39) :
    onDocumentRestored s = .ok s := by
  unfold onDocumentRestored
  have h1 : migrateStressValues s = .ok s := by
    unfold migrateStressValues
    rw [if_neg (by simp [hsv])]
  rw [h1, except_bind_ok]
  unfold migrateStats
  simp only [hfe, hlen]
  rw [if_neg h39]

set_option maxRecDepth 20000 in
/-- C4 witness: a freshly constructed `ResultMechanical` store is
already current (no `StressValues`, 26-entry `Stats`) and migration
leaves it untouched. -/
theorem migration_forward_safety_witness :
    onDocumentRestored resultMechanicalStore = .ok resultMechanicalStore :=
  migration_forward_safety resultMechanicalStore
    ⟨⟨"Stats", .pFloatList, "Fem", "Statistics of the results", false, false⟩,
      .floatList (List.replicate 26 0)⟩ 26 rfl rfl rfl (by omega)

/-- C5: rule-order independence.  The rename rule followed by the
shape-reduction rule succeeds with store `t` exactly when the rules
applied in the opposite order succeed with the same store `t`. -/
theorem migration_rules_commute (s t : Store) :
    onDocumentRestored s = .ok t ↔ onDocumentRestoredSwapped s = .ok t := by
  rcases migration_order_outcome s with h | ⟨⟨e1, h1⟩, ⟨e2, h2⟩⟩
  · rw [h]
  · constructor
    · intro hx
      rw [h1] at hx
      exact Except.noConfusion hx
    · intro hx
      rw [h2] at hx
      exact Except.noConfusion hx

set_option maxRecDepth 20000 in
/-- C5 witness: on the concrete legacy store both rule orders succeed
and produce the same migrated store. -/
theorem migration_rules_commute_witness :
    onDocumentRestored legacyStore = .ok legacyMigrated ∧
    onDocumentRestoredSwapped legacyStore = .ok legacyMigrated := by
  have h : onDocumentRestored legacyStore = .ok legacyMigrated := rfl
  exact ⟨h, (migration_rules_commute legacyStore legacyMigrated).mp h⟩

set_option maxRecDepth 40000 in
/-- C10: the migration pass reads `Stats` unconditionally, so it fails
on any store lacking a `Stats` attribute; a store produced by
construction has `Stats` and passes migration unchanged. -/
theorem migration_requires_stats :
    (∀ s : Store, hasProp s "Stats" = false →
      ∃ e, onDocumentRestored s = .error e) ∧
    hasProp resultMechanicalStore "Stats" = true ∧
    onDocumentRestored resultMechanicalStore = .ok resultMechanicalStore := by
  refine ⟨?_, by rfl, by rfl⟩
  intro s hs
  unfold onDocumentRestored
  cases hmsv : migrateStressValues s with
  | error e => exact ⟨e, by rw [except_bind_error]⟩
  | ok s1 =>
    have hs1 : findEntry s1 "Stats" = none := by
      have hp : hasProp s1 "Stats" = false := by
        rw [hasProp,
          migrateStressValues_findEntry_other s s1 hmsv "Stats" (by decide) (by decide)]
        exact hs
      cases hx : findEntry s1 "Stats" with
      | none => rfl
      | some b =>
        rw [hasProp, hx] at hp
        simp at hp
    refine ⟨.unknownAttribute, ?_⟩
    rw [except_bind_ok]
    unfold migrateStats
    simp only [hs1]

/-- C10 witness: on the empty store (no `Stats`), the migration pass
fails. -/
theorem migration_requires_stats_witness :
    ∃ e, onDocumentRestored ([] : Store) = .error e :=
  migration_requires_stats.1 [] rfl

/-- C2: shape-reduction correctness.  On a store whose `Stats`
attribute is a float list laid out as 13 (min, avg, max) triples — hence
of length 39 — the shape-reduction rule succeeds and produces the
26-entry list of (min, max) pairs, in the original relative order. -/
theorem migration_stats_reduction (s : Store) (a : Attribute)
    (ts : List (Rat × Rat × Rat))
    (hfe : findEntry s "Stats" = some a)
    (hty : a.descr.ptype = .pFloatList)
    (hval : a.value = .floatList (joinTriples ts))
    (hts : ts.length = 13) :
    ∃ t, migrateStats s = .ok t ∧
      getValue t "Stats" = some (.floatList (joinPairs ts)) ∧
      (joinPairs ts).length = 26 := by
  have hlen : a.value.listLen = some 39 := by
    rw [hval]
    simp [Value.listLen, joinTriples_length, hts]
  have hred : a.value.eraseMids = .floatList (joinPairs ts) := by
    rw [hval]
    simp only [Value.eraseMids]
    rw [delMids_joinTriples ts 12 (by omega)]
  have hc : a.descr.ptype = a.value.eraseMids.ptype := by
    rw [eraseMids_ptype, hval]
    exact hty
  refine ⟨writeValue s "Stats" a.value.eraseMids, ?_, ?_, ?_⟩
  · unfold migrateStats privilegedSet
    simp only [hfe, hlen, if_true, eq_self_iff_true]
    rw [if_pos hc]
  · rw [getValue, findEntry_writeValue_self, hfe]
    simp [hred]
  · rw [joinPairs_length, hts]

set_option maxRecDepth 20000 in
/-- C2 witness: the concrete legacy store carries 13 (0, 1, 2) triples;
the rule reduces them to 13 (0, 2) pairs. -/
theorem migration_stats_reduction_witness :
    ∃ t, migrateStats legacyStore = .ok t ∧
      getValue t "Stats" =
        some (.floatList (joinPairs (List.replicate 13 (0, 1, 2)))) ∧
      (joinPairs (List.replicate 13 ((0 : Rat), (1 : Rat), (2 : Rat)))).length = 26 :=
  migration_stats_reduction legacyStore
    ⟨⟨"Stats", .pFloatList, "Fem", "", false, false⟩,
      .floatList (joinTriples (List.replicate 13 (0, 1, 2)))⟩
    (List.replicate 13 (0, 1, 2)) rfl rfl rfl (by simp)

/-- C3: loss-freedom of the rename rule.  If `StressValues` holds the
float list `v`, then any successful migration pass yields a store in
which `vonMises` holds exactly `v` and `StressValues` is absent;
moreover when `vonMises` is absent from the persisted store the rename
rule itself succeeds, because the `vonMises` descriptor is (re)declared
before the value is copied. -/
theorem migration_rename_lossfree (s : Store) (l : List Rat)
    (hsv : getValue s "StressValues" = some (.floatList l)) :
    (∀ t, onDocumentRestored s = .ok t →
      getValue t "vonMises" = some (.floatList l) ∧
      hasProp t "StressValues" = false) ∧
    (hasProp s "vonMises" = false →
      ∃ u, migrateStressValues s = .ok u ∧
        getValue u "vonMises" = some (.floatList l) ∧
        hasProp u "StressValues" = false) := by
  have hne1 : ("StressValues" : String) ≠ "vonMises" := by decide
  have hne2 : ("vonMises" : String) ≠ "StressValues" := by decide
  obtain ⟨aSV, hfSV, hvSV⟩ :
      ∃ a, findEntry s "StressValues" = some a ∧ a.value = .floatList l := by
    rw [getValue] at hsv
    cases hq : findEntry s "StressValues" with
    | none => rw [hq] at hsv; cases hsv
    | some a =>
      rw [hq] at hsv
      exact ⟨a, rfl, Option.some.inj hsv⟩
  have hp : hasProp s "StressValues" = true := by
    rw [hasProp, hfSV]
    rfl
  constructor
  · intro t h
    unfold onDocumentRestored at h
    cases hmsv : migrateStressValues s with
    | error e =>
      rw [hmsv, except_bind_error] at h
      exact Except.noConfusion h
    | ok s1 =>
      rw [hmsv, except_bind_ok] at h
      obtain ⟨a, b, ha, hb, hvb⟩ := migrateStressValues_vonMises_value s s1 hp hmsv
      obtain rfl : aSV = a := Option.some.inj (hfSV.symm.trans ha)
      constructor
      · rw [getValue, migrateStats_findEntry_other s1 t h "vonMises" (by decide), hb]
        simp [hvb, hvSV]
      · rw [migrateStats_hasProp s1 t h]
        exact migrateStressValues_no_SV s s1 hmsv
  · intro hvM
    have hfc : findEntry (declareVonMises s) "vonMises" =
        some ⟨⟨"vonMises", .pFloatList, "NodeData",
          "List of von Mises equivalent stresses", true, true⟩,
          .floatList []⟩ :=
      findEntry_addLockedProperty_absent s _ _ _ _ _ hvM
    have h1 : readValue (declareVonMises s) "StressValues" = .ok (.floatList l) := by
      unfold readValue
      rw [findEntry_declareVonMises_ne s _ hne1]
      simp only [hfSV, hvSV]
    have h2 : privilegedSet (declareVonMises s) "vonMises" (.floatList l) =
        .ok (writeValue (declareVonMises s) "vonMises" (.floatList l)) := by
      unfold privilegedSet
      rw [hfc]
      rfl
    have hf2 : findEntry (writeValue (declareVonMises s) "vonMises" (.floatList l))
        "StressValues" = some aSV := by
      rw [findEntry_writeValue_ne _ _ _ hne1, findEntry_declareVonMises_ne s _ hne1]
      exact hfSV
    have h3 : setPropertyStatus
        (writeValue (declareVonMises s) "vonMises" (.floatList l))
        "StressValues" "-LockDynamic" =
        .ok (clearLock (writeValue (declareVonMises s) "vonMises" (.floatList l))
          "StressValues") := by
      unfold setPropertyStatus
      rw [hf2, if_pos rfl]
    have hf3 : findEntry (clearLock
        (writeValue (declareVonMises s) "vonMises" (.floatList l)) "StressValues")
        "StressValues" =
        some { aSV with descr := { aSV.descr with locked := false } } := by
      rw [findEntry_clearLock_self, hf2]
      rfl
    have h4 : removeProperty (clearLock
        (writeValue (declareVonMises s) "vonMises" (.floatList l)) "StressValues")
        "StressValues" =
        .ok (removeAll (clearLock
          (writeValue (declareVonMises s) "vonMises" (.floatList l)) "StressValues")
          "StressValues") := by
      unfold removeProperty
      rw [hf3]
      rfl
    refine ⟨removeAll (clearLock
      (writeValue (declareVonMises s) "vonMises" (.floatList l)) "StressValues")
      "StressValues", ?_, ?_, ?_⟩
    · unfold migrateStressValues
      rw [if_pos hp, h1, except_bind_ok, h2, except_bind_ok, h3, except_bind_ok, h4]
    · rw [getValue, findEntry_removeAll_ne _ _ hne2, findEntry_clearLock_ne _ _ hne2,
        findEntry_writeValue_self, hfc]
      rfl
    · rw [hasProp, findEntry_removeAll_self]
      rfl

set_option maxRecDepth 20000 in
/-- C3 witness: the concrete legacy store has `StressValues = [1, 2]`
and no `vonMises`; the rename rule succeeds, relocating the value. -/
theorem migration_rename_lossfree_witness :
    ∃ u, migrateStressValues legacyStore = .ok u ∧
      getValue u "vonMises" = some (.floatList [1, 2]) ∧
      hasProp u "StressValues" = false :=
  (migration_rename_lossfree legacyStore [1, 2] rfl).2 rfl

set_option maxRecDepth 40000 in
/-- C6: after construction of a Magnetodynamic equation instance,
`CalculateNodalFields` is the single result-output toggle set `True`;
all ten sibling result toggles are `False`. -/
theorem magnetodynamic_result_toggles :
    magnetodynamicInit equationBaseStore = .ok magnetodynamicStore ∧
    getValue magnetodynamicStore "CalculateNodalFields" = some (.bool true) ∧
    getValue magnetodynamicStore "CalculateCurrentDensity" = some (.bool false) ∧
    getValue magnetodynamicStore "CalculateElectricField" = some (.bool false) ∧
    getValue magnetodynamicStore "CalculateElementalFields" = some (.bool false) ∧
    getValue magnetodynamicStore "CalculateHarmonicLoss" = some (.bool false) ∧
    getValue magnetodynamicStore "CalculateJouleHeating" = some (.bool false) ∧
    getValue magnetodynamicStore "CalculateMagneticFieldStrength" = some (.bool false) ∧
    getValue magnetodynamicStore "CalculateMaxwellStress" = some (.bool false) ∧
    getValue magnetodynamicStore "CalculateNodalForces" = some (.bool false) ∧
    getValue magnetodynamicStore "CalculateNodalHeating" = some (.bool false) ∧
    getValue magnetodynamicStore "DiscontinuousBodies" = some (.bool false) :=
  ⟨rfl, rfl, rfl, rfl, rfl, rfl, rfl, rfl, rfl, rfl, rfl, rfl⟩

set_option maxRecDepth 40000 in
/-- C7: read-only enforcement.  An external set of the read-only
`ResultType` attribute of a constructed `ResultMechanical` store fails
with `ReadOnlyViolationError` for every value, while the privileged
write during construction did set it to `"Fem::ResultMechanical"`. -/
theorem readonly_enforcement :
    (∀ v : Value, externalSet resultMechanicalStore "ResultType" v =
      .error .readOnlyViolation) ∧
    getValue resultMechanicalStore "ResultType" =
      some (.string "Fem::ResultMechanical") := by
  constructor
  · intro v
    rfl
  · rfl

set_option maxRecDepth 40000 in
/-- C7 witness: the read-only rejection at one concrete value. -/
theorem readonly_enforcement_witness :
    externalSet resultMechanicalStore "ResultType" (.string "Solid") =
      .error .readOnlyViolation :=
  readonly_enforcement.1 (.string "Solid")

set_option maxRecDepth 40000 in
/-- C8: priority ordering.  For instances declared in order with
priorities `[10, 5, 10]` the resolved order is
`[instance2(5), instance1(10), instance3(10)]`; in general the resolved
order is a permutation of the declarations sorted ascending by
priority; and a Magnetodynamic instance is constructed with
`Priority = 10`. -/
theorem priority_ordering :
    resolveOrder [(1, 10), (2, 5), (3, 10)] = [(2, 5), (1, 10), (3, 10)] ∧
    getValue magnetodynamicStore "Priority" = some (.int 10) ∧
    ∀ l : List (Nat × Int),
      (resolveOrder l).Pairwise (fun a b => a.2 ≤ b.2) ∧
      List.Perm (resolveOrder l) l :=
  ⟨by decide, rfl, fun l => ⟨resolveOrder_sorted l, resolveOrder_perm l⟩⟩

/-- C8 witness: the general sortedness and permutation facts at the
concrete declaration list. -/
theorem priority_ordering_witness :
    (resolveOrder [(1, 10), (2, 5), (3, 10)]).Pairwise (fun a b => a.2 ≤ b.2) ∧
    List.Perm (resolveOrder [(1, 10), (2, 5), (3, 10)]) [(1, 10), (2, 5), (3, 10)] :=
  priority_ordering.2.2 [(1, 10), (2, 5), (3, 10)]

set_option maxRecDepth 40000 in
/-- C9: the `Stats` length invariant.  Construction initializes `Stats`
to 26 zeros, and whenever the shape-reduction rule fires on a 39-entry
list it outputs a 26-entry list. -/
theorem stats_length_invariant :
    (getValue resultMechanicalStore "Stats" =
      some (.floatList (List.replicate 26 0)) ∧
     (List.replicate 26 (0 : Rat)).length = 26) ∧
    (∀ (s t : Store) (a : Attribute),
      findEntry s "Stats" = some a → a.value.listLen = some 39 →
      migrateStats s = .ok t →
      ∃ b, findEntry t "Stats" = some b ∧ b.value.listLen = some 26) := by
  constructor
  · exact ⟨rfl, by simp⟩
  · intro s t a hfe hlen h
    unfold migrateStats privilegedSet at h
    simp only [hfe, hlen, if_true, eq_self_iff_true] at h
    by_cases hty : a.descr.ptype = a.value.eraseMids.ptype
    · simp only [if_pos hty, Except.ok.injEq] at h
      subst h
      refine ⟨{ a with value := a.value.eraseMids }, ?_, ?_⟩
      · rw [findEntry_writeValue_self, hfe]
        rfl
      · exact eraseMids_listLen_39 a.value hlen
    · simp only [if_neg hty] at h
      exact Except.noConfusion h

set_option maxRecDepth 40000 in
/-- C9 witness: the shape-reduction rule applied to the concrete legacy
store yields a 26-entry `Stats` list. -/
theorem stats_length_invariant_witness :
    ∃ b, findEntry (writeValue legacyStore "Stats"
        (Value.eraseMids (.floatList (joinTriples (List.replicate 13 (0, 1, 2))))))
      "Stats" = some b ∧ b.value.listLen = some 26 :=
  stats_length_invariant.2 legacyStore _
    ⟨⟨"Stats", .pFloatList, "Fem", "", false, false⟩,
      .floatList (joinTriples (List.replicate 13 (0, 1, 2)))⟩ rfl rfl rfl
